import Mathlib

/-!
Verification of the bedrock shard-orchestration system (crust operator +
stratum worker) against its specification.

The Rust sources are shallowly embedded: u32 arithmetic is modelled on `Nat`
with explicit overflow checks where the Rust code can overflow (Rust panics
on overflow in these code paths; a panic is modelled as `Option.none`).
Loops become fuel-indexed structural recursion with fuel chosen provably
larger than the iteration count, so `none` can only arise from a modelled
panic.
-/

/-- Upper bound of `u32` plus one: `2^32`. -/
def u32Bound : Nat := 4294967296

/-- Mirrors `ShardGroup` from `crust/src/types.rs`: a contiguous inclusive
range of shard ids assigned to one deployment. -/
structure ShardGroup where
  deploymentName : String
  shardStart : Nat
  shardEnd : Nat
  replicas : Int
  deriving DecidableEq, Repr

/-- Loop body of `calculate_shard_groups` (`crust/src/kubernetes.rs`),
fuel-indexed.  Each iteration with `current < total` computes
`shard_end = min(current + shards_per_replica - 1, total - 1)` in u32
arithmetic (the addition `current + per` panics on u32 overflow, modelled by
`none`), emits a group named `stratum-group-<index>`, and continues from
`shard_end + 1`. -/
def calcGroupsGo (total per : Nat) : Nat → Nat → Nat → Option (List ShardGroup)
  | 0, _, _ => none
  | fuel + 1, current, idx =>
    if current < total then
      if u32Bound ≤ current + per then none
      else
        let e := min (current + per - 1) (total - 1)
        match calcGroupsGo total per fuel (e + 1) (idx + 1) with
        | none => none
        | some rest =>
          some ({ deploymentName := "stratum-group-" ++ toString idx,
                  shardStart := current, shardEnd := e, replicas := 1 } :: rest)
    else some []

/-- `calculate_shard_groups(total_shards, shards_per_replica)` from
`crust/src/kubernetes.rs`.  With `shards_per_replica = 0` and
`total_shards > 0`, the first iteration underflows in
`current + shards_per_replica - 1` (u32 subtraction panics), modelled by
`none`; otherwise the loop runs at most `total` times, so fuel `total + 1`
is never exhausted. -/
def calculate_shard_groups (total per : Nat) : Option (List ShardGroup) :=
  if 0 < per then calcGroupsGo total per (total + 1) 0 0
  else if total = 0 then some [] else none

/-- The number of shard ids carried by a group (inclusive range). -/
def groupSize (g : ShardGroup) : Nat := g.shardEnd + 1 - g.shardStart

/-- The shard ids of a group, in order. -/
def groupRange (g : ShardGroup) : List Nat := List.range' g.shardStart (groupSize g)

/-- Core correctness of the partitioner loop: starting from `current ≤ total`
with positive `shards_per_replica`, no u32 overflow (`total + per ≤ 2^32`)
and enough fuel, the loop returns groups whose ranges concatenate to exactly
`[current, total)`, each of size at most `per`, numbering
`⌈(total - current) / per⌉`, with every group except possibly the last of
size exactly `per`. -/
theorem calcGroupsGo_spec (total per : Nat) (hper : 0 < per) (hov : total + per ≤ u32Bound) :
    ∀ fuel current idx, current ≤ total → total - current < fuel →
    ∃ gs, calcGroupsGo total per fuel current idx = some gs ∧
      (gs.map groupRange).flatten = List.range' current (total - current) ∧
      (∀ g ∈ gs, g.shardStart ≤ g.shardEnd ∧ groupSize g ≤ per) ∧
      gs.length = (total - current + per - 1) / per ∧
      (∀ i : Fin gs.length, (i : Nat) + 1 < gs.length → groupSize (gs.get i) = per) := by
  intro fuel
  induction fuel with
  | zero => intro current idx _ hf; omega
  | succ f ih =>
    intro current idx hct hf
    by_cases hc : current < total
    · have hnov : ¬ u32Bound ≤ current + per := by omega
      by_cases hfull : current + per ≤ total
      · -- full group of size `per`, recurse from `current + per`
        have hmin : min (current + per - 1) (total - 1) = current + per - 1 := by omega
        obtain ⟨rest, hrest, hjoin, hsz, hlen, hlast⟩ :=
          ih (current + per) (idx + 1) (by omega) (by omega)
        have hstep : current + per - 1 + 1 = current + per := by omega
        refine ⟨{ deploymentName := "stratum-group-" ++ toString idx, shardStart := current,
                  shardEnd := current + per - 1, replicas := 1 } :: rest, ?_, ?_, ?_, ?_, ?_⟩
        · simp only [calcGroupsGo, if_pos hc, if_neg hnov, hmin, hstep, hrest]
        · simp only [List.map_cons, List.flatten_cons, hjoin, groupRange, groupSize]
          have h1 : current + per - 1 + 1 - current = per := by omega
          rw [h1, List.range'_append_1]
          congr 1
          omega
        · intro g hg
          rcases List.mem_cons.mp hg with h | h
          · subst h; constructor
            · simp; omega
            · simp [groupSize]; omega
          · exact hsz g h
        · simp only [List.length_cons, hlen]
          have h2 : total - (current + per) + per - 1 = total - current - 1 := by omega
          have h3 : total - current + per - 1 = (total - current - 1) + per := by omega
          rw [h2, h3, Nat.add_div_right _ hper]
        · intro i hi
          rcases i with ⟨iv, hiv⟩
          cases iv with
          | zero => simp [List.get, groupSize]; omega
          | succ j =>
            simp only [List.length_cons] at hiv hi
            exact hlast ⟨j, by omega⟩ (by simpa using hi)
      · -- short final group covering `[current, total)`
        have hmin : min (current + per - 1) (total - 1) = total - 1 := by omega
        obtain ⟨rest, hrest, hjoin, _, hlen, _⟩ := ih total (idx + 1) le_rfl (by omega)
        have hrest0 : rest = [] := by
          have : total - total + per - 1 < per := by omega
          rw [Nat.div_eq_of_lt this] at hlen
          exact List.length_eq_zero.mp hlen
        subst hrest0
        have hstep : total - 1 + 1 = total := by omega
        refine ⟨[{ deploymentName := "stratum-group-" ++ toString idx, shardStart := current,
                   shardEnd := total - 1, replicas := 1 }], ?_, ?_, ?_, ?_, ?_⟩
        · simp only [calcGroupsGo, if_pos hc, if_neg hnov, hmin, hstep, hrest]
        · simp only [List.map_cons, List.map_nil, List.flatten_cons, List.flatten_nil,
            List.append_nil, groupRange, groupSize]
          congr 1
          omega
        · intro g hg
          rcases List.mem_cons.mp hg with h | h
          · subst h; constructor
            · simp; omega
            · simp [groupSize]; omega
          · simp at h
        · simp only [List.length_singleton]
          rw [Nat.div_eq_of_lt_le (by omega : 1 * per ≤ total - current + per - 1)
            (by omega : total - current + per - 1 < (1 + 1) * per)]
        · intro i hi
          rcases i with ⟨iv, hiv⟩
          simp only [List.length_singleton] at hi
          omega
    · -- loop exit: `current = total`
      have hct' : current = total := by omega
      refine ⟨[], ?_, ?_, ?_, ?_, ?_⟩
      · simp only [calcGroupsGo, if_neg hc]
      · simp [hct']
      · simp
      · simp only [List.length_nil]
        rw [hct', Nat.sub_self]
        exact (Nat.div_eq_of_lt (by omega)).symm
      · intro i hi; simp at hi

/-- C1 (amended).  For every `total_shards` and `shards_per_replica ≥ 1` with
`total_shards + shards_per_replica ≤ 2^32` (so the u32 computation
`current + shards_per_replica` never overflows), `calculate_shard_groups`
returns a list of groups that are contiguous and non-overlapping, whose
ranges concatenate to exactly `[0, total_shards)`, each of length at most
`shards_per_replica`, numbering `⌈total_shards / shards_per_replica⌉`, with
only the last group possibly short; `total_shards = 0` yields the empty
list. -/
theorem calculate_shard_groups_partitions (total per : Nat) (hper : 1 ≤ per)
    (hov : total + per ≤ u32Bound) :
    ∃ gs, calculate_shard_groups total per = some gs ∧
      (gs.map groupRange).flatten = List.range total ∧
      (∀ g ∈ gs, g.shardStart ≤ g.shardEnd ∧ groupSize g ≤ per) ∧
      gs.length = (total + per - 1) / per ∧
      (∀ i : Fin gs.length, (i : Nat) + 1 < gs.length → groupSize (gs.get i) = per) ∧
      (total = 0 → gs = []) := by
  obtain ⟨gs, hgs, hjoin, hsz, hlen, hlast⟩ :=
    calcGroupsGo_spec total per hper hov (total + 1) 0 0 (Nat.zero_le _) (by omega)
  refine ⟨gs, ?_, ?_, hsz, ?_, hlast, ?_⟩
  · rw [calculate_shard_groups, if_pos (show 0 < per from hper)]
    exact hgs
  · rw [List.range_eq_range']
    simpa using hjoin
  · simpa using hlen
  · intro h0
    subst h0
    apply List.length_eq_zero.mp
    rw [hlen]
    exact Nat.div_eq_of_lt (by omega)

/-- Witness for C1: at `(total_shards, shards_per_replica) = (7, 3)` the
hypotheses hold and the partition properties follow. -/
theorem calculate_shard_groups_partitions_witness :
    ∃ gs, calculate_shard_groups 7 3 = some gs ∧
      (gs.map groupRange).flatten = List.range 7 ∧
      (∀ g ∈ gs, g.shardStart ≤ g.shardEnd ∧ groupSize g ≤ 3) ∧
      gs.length = (7 + 3 - 1) / 3 ∧
      (∀ i : Fin gs.length, (i : Nat) + 1 < gs.length → groupSize (gs.get i) = 3) ∧
      (7 = 0 → gs = []) :=
  calculate_shard_groups_partitions 7 3 (by decide) (by decide)

/-- On `(total_shards, shards_per_replica) = (4294967295, 7)` the loop
reaches `current = 4294967292` (after 613566756 full groups) and the u32
addition `current + shards_per_replica = 4294967299` overflows, so the Rust
function panics: every loop state `current = 4294967292 - 7·d` propagates the
panic. -/
theorem calcGroupsGo_overflow_4294967295_7 :
    ∀ d fuel idx, 7 * d ≤ 4294967292 → d < fuel →
    calcGroupsGo 4294967295 7 fuel (4294967292 - 7 * d) idx = none := by
  intro d
  induction d with
  | zero =>
    intro fuel idx _ hfuel
    match fuel, hfuel with
    | f + 1, _ =>
      simp only [Nat.mul_zero, Nat.sub_zero, calcGroupsGo]
      rw [if_pos (by decide), if_pos (by decide)]
  | succ d ih =>
    intro fuel idx hd hfuel
    match fuel, hfuel with
    | f + 1, hfuel =>
      have hcur : 4294967292 - 7 * (d + 1) + 7 = 4294967292 - 7 * d := by omega
      simp only [calcGroupsGo]
      rw [if_pos (by omega), if_neg (by simp only [u32Bound]; omega)]
      have hmin : min (4294967292 - 7 * (d + 1) + 7 - 1) (4294967295 - 1)
          = 4294967292 - 7 * (d + 1) + 7 - 1 := by omega
      rw [hmin]
      have hnext : 4294967292 - 7 * (d + 1) + 7 - 1 + 1 = 4294967292 - 7 * d := by omega
      rw [hnext, ih f (idx + 1) (by omega) (by omega)]

/-- Counterexample for C1 as stated.  At `total_shards = 4294967295` and
`shards_per_replica = 7` (both valid u32 values with
`total_shards ≥ 0` and `shards_per_replica ≥ 1`), the partitioner does not
return any list at all: the u32 addition `current + shards_per_replica`
overflows at `current = 4294967292` and the function panics (modelled as
`none`), so no list with the claimed partition properties is returned. -/
theorem calculate_shard_groups_overflow_counterexample :
    calculate_shard_groups 4294967295 7 = none := by
  rw [calculate_shard_groups, if_pos (by decide)]
  have h := calcGroupsGo_overflow_4294967295_7 613566756 4294967296 0 (by decide) (by decide)
  simpa using h


/-- Mirrors `Config` from `stratum/src/config.rs`: the worker's environment
configuration. -/
structure StratumConfig where
  natsUrl : String
  discordToken : String
  shardIdStart : Nat
  shardIdEnd : Nat
  totalShards : Nat
  workerId : String
  maxConcurrency : Nat
  deriving DecidableEq, Repr

/-- The `shard_ids` range computed by `new_shard_manager_config`
(`stratum/src/discord.rs`): `config.shard_id_start..config.shard_id_end + 1`.
The u32 addition `shard_id_end + 1` panics when `shard_id_end = u32::MAX`
(modelled as `none`).  Note the range depends only on the configured
start/end, never on `total_shards`. -/
def shardManagerShardIds (cfg : StratumConfig) : Option (List Nat) :=
  if cfg.shardIdEnd + 1 < u32Bound then
    some (List.range' cfg.shardIdStart (cfg.shardIdEnd + 1 - cfg.shardIdStart))
  else none

/-- State of a `ShardManager` (`stratum/src/shard_manager.rs`): its `Config`
and the key set of the `shard_handles` map, embedded as a duplicate-free
list (the `HashMap` key set; the task handles themselves carry no
information relevant to the session-set claims). -/
structure ManagerState where
  config : StratumConfig
  shardHandles : List Nat
  deriving DecidableEq, Repr

/-- An externally visible shard-lifecycle action taken by the manager. -/
inductive ShardOp where
  | stop (id : Nat)
  | start (id : Nat)
  deriving DecidableEq, Repr

/-- Whether an operation is a `stop_shard`. -/
def ShardOp.isStop : ShardOp → Bool
  | .stop _ => true
  | .start _ => false

/-- `stop_shard` (`stratum/src/shard_manager.rs`): if the id is a key of
`shard_handles`, remove it and abort its task; otherwise do nothing. -/
def stopShard (st : ManagerState) (id : Nat) : ManagerState × List ShardOp :=
  if id ∈ st.shardHandles then
    ({ st with shardHandles := st.shardHandles.erase id }, [ShardOp.stop id])
  else (st, [])

/-- `start_shard` (`stratum/src/shard_manager.rs`): if the id is already a
key of `shard_handles`, skip; otherwise spawn the supervising task and store
its handle under the id. -/
def startShard (st : ManagerState) (id : Nat) : ManagerState × List ShardOp :=
  if id ∈ st.shardHandles then (st, [])
  else ({ st with shardHandles := id :: st.shardHandles }, [ShardOp.start id])

/-- Applies a per-shard action to each id of a list in order, concatenating
the emitted operations. -/
def runShardOps (f : ManagerState → Nat → ManagerState × List ShardOp) :
    ManagerState → List Nat → ManagerState × List ShardOp
  | st, [] => (st, [])
  | st, id :: rest =>
    let r := f st id
    let r2 := runShardOps f r.1 rest
    (r2.1, r.2 ++ r2.2)

/-- The differential step of `update_shards`
(`stratum/src/shard_manager.rs`): `to_stop` is the set of held ids no longer
desired, `to_start` the set of desired ids not held; every `to_stop` member
is stopped, then every `to_start` member is started.  The Rust code iterates
`HashSet::difference` in an unspecified order; the embedding iterates the
differences in the order of the underlying lists (the claims settled here
are order-insensitive). -/
def updateShardsDiff (st1 : ManagerState) (ids : List Nat) :
    ManagerState × List ShardOp :=
  let toStop : List Nat := st1.shardHandles.filter (fun k => decide (¬ k ∈ ids))
  let toStart : List Nat := ids.filter (fun k => decide (¬ k ∈ st1.shardHandles))
  let r1 := runShardOps stopShard st1 toStop
  let r2 := runShardOps startShard r1.1 toStart
  (r2.1, r1.2 ++ r2.2)

/-- `update_shards(new_total_shards)` (`stratum/src/shard_manager.rs`):
replace `config.total_shards`, recompute the desired ids via
`new_shard_manager_config` (which panics iff `shard_id_end = u32::MAX`,
modelled by `none`), then perform the differential stop/start. -/
def updateShards (st : ManagerState) (newTotal : Nat) :
    Option (ManagerState × List ShardOp) :=
  match shardManagerShardIds { st.config with totalShards := newTotal } with
  | none => none
  | some ids =>
    some (updateShardsDiff { st with config := { st.config with totalShards := newTotal } } ids)

/-- Folding `stop_shard` over a list removes exactly that list from the key
set, keeps it duplicate-free, leaves the config untouched, and emits only
stop operations. -/
theorem runShardOps_stopShard (ids : List Nat) : ∀ st : ManagerState,
    st.shardHandles.Nodup →
    (runShardOps stopShard st ids).1.config = st.config ∧
    (runShardOps stopShard st ids).1.shardHandles.Nodup ∧
    (∀ x, x ∈ (runShardOps stopShard st ids).1.shardHandles ↔
      x ∈ st.shardHandles ∧ ¬ x ∈ ids) ∧
    ∀ op ∈ (runShardOps stopShard st ids).2, op.isStop = true := by
  induction ids with
  | nil =>
    intro st hnd
    refine ⟨rfl, hnd, by simp [runShardOps], by simp [runShardOps]⟩
  | cons id rest ih =>
    intro st hnd
    by_cases hmem : id ∈ st.shardHandles
    · obtain ⟨hcfg, hnd2, hkeys, hops⟩ :=
        ih { st with shardHandles := st.shardHandles.erase id } (hnd.erase id)
      refine ⟨by simpa [runShardOps, stopShard, hmem] using hcfg,
        by simpa [runShardOps, stopShard, hmem] using hnd2, ?_, ?_⟩
      · intro x
        have hx := hkeys x
        simp only [runShardOps, stopShard, if_pos hmem] at hx ⊢
        rw [hx, hnd.mem_erase_iff]
        simp only [List.mem_cons]
        tauto
      · intro op hop
        simp only [runShardOps, stopShard, if_pos hmem, List.mem_append,
          List.mem_singleton] at hop
        rcases hop with rfl | h
        · rfl
        · exact hops op h
    · obtain ⟨hcfg, hnd2, hkeys, hops⟩ := ih st hnd
      refine ⟨by simpa [runShardOps, stopShard, hmem] using hcfg,
        by simpa [runShardOps, stopShard, hmem] using hnd2, ?_, ?_⟩
      · intro x
        have hx := hkeys x
        simp only [runShardOps, stopShard, if_neg hmem] at hx ⊢
        rw [hx]
        simp only [List.mem_cons]
        constructor
        · rintro ⟨hxs, hxr⟩
          exact ⟨hxs, fun h => hxr (h.resolve_left (fun heq => hmem (heq ▸ hxs)))⟩
        · rintro ⟨hxs, hxr⟩
          exact ⟨hxs, fun h => hxr (Or.inr h)⟩
      · intro op hop
        simp only [runShardOps, stopShard, if_neg hmem, List.nil_append] at hop
        exact hops op hop

/-- Folding `start_shard` over a list adds exactly that list to the key set,
keeps it duplicate-free, leaves the config untouched, and emits only start
operations. -/
theorem runShardOps_startShard (ids : List Nat) : ∀ st : ManagerState,
    st.shardHandles.Nodup →
    (runShardOps startShard st ids).1.config = st.config ∧
    (runShardOps startShard st ids).1.shardHandles.Nodup ∧
    (∀ x, x ∈ (runShardOps startShard st ids).1.shardHandles ↔
      x ∈ st.shardHandles ∨ x ∈ ids) ∧
    ∀ op ∈ (runShardOps startShard st ids).2, op.isStop = false := by
  induction ids with
  | nil =>
    intro st hnd
    refine ⟨rfl, hnd, by simp [runShardOps], by simp [runShardOps]⟩
  | cons id rest ih =>
    intro st hnd
    by_cases hmem : id ∈ st.shardHandles
    · obtain ⟨hcfg, hnd2, hkeys, hops⟩ := ih st hnd
      refine ⟨by simpa [runShardOps, startShard, hmem] using hcfg,
        by simpa [runShardOps, startShard, hmem] using hnd2, ?_, ?_⟩
      · intro x
        have hx := hkeys x
        simp only [runShardOps, startShard, if_pos hmem] at hx ⊢
        rw [hx]
        simp only [List.mem_cons]
        constructor
        · rintro (hxs | hxr)
          · exact Or.inl hxs
          · exact Or.inr (Or.inr hxr)
        · rintro (hxs | rfl | hxr)
          · exact Or.inl hxs
          · exact Or.inl hmem
          · exact Or.inr hxr
      · intro op hop
        simp only [runShardOps, startShard, if_pos hmem, List.nil_append] at hop
        exact hops op hop
    · obtain ⟨hcfg, hnd2, hkeys, hops⟩ :=
        ih { st with shardHandles := id :: st.shardHandles }
          (List.nodup_cons.mpr ⟨hmem, hnd⟩)
      refine ⟨by simpa [runShardOps, startShard, hmem] using hcfg,
        by simpa [runShardOps, startShard, hmem] using hnd2, ?_, ?_⟩
      · intro x
        have hx := hkeys x
        simp only [runShardOps, startShard, if_neg hmem] at hx ⊢
        rw [hx]
        simp only [List.mem_cons]
        tauto
      · intro op hop
        simp only [runShardOps, startShard, if_neg hmem, List.mem_append,
          List.mem_singleton] at hop
        rcases hop with rfl | h
        · rfl
        · exact hops op h

/-- The differential stop/start step of `update_shards`, run on a
duplicate-free key set, always leaves the key set equal (as a set) to the
desired id list, and emits all stop operations before all start
operations. -/
theorem updateShardsDiff_spec (st1 : ManagerState) (ids : List Nat)
    (hnd : st1.shardHandles.Nodup) :
    (∀ x, x ∈ (updateShardsDiff st1 ids).1.shardHandles ↔ x ∈ ids) ∧
    (updateShardsDiff st1 ids).2
      = (updateShardsDiff st1 ids).2.filter (fun op => op.isStop)
        ++ (updateShardsDiff st1 ids).2.filter (fun op => !op.isStop) := by
  have hdef : updateShardsDiff st1 ids =
      ((runShardOps startShard
          (runShardOps stopShard st1
            (st1.shardHandles.filter (fun k => decide (¬ k ∈ ids)))).1
          (ids.filter (fun k => decide (¬ k ∈ st1.shardHandles)))).1,
       (runShardOps stopShard st1
          (st1.shardHandles.filter (fun k => decide (¬ k ∈ ids)))).2
         ++ (runShardOps startShard
              (runShardOps stopShard st1
                (st1.shardHandles.filter (fun k => decide (¬ k ∈ ids)))).1
              (ids.filter (fun k => decide (¬ k ∈ st1.shardHandles)))).2) := rfl
  obtain ⟨hcfg1, hnd1, hkeys1, hstops⟩ :=
    runShardOps_stopShard (st1.shardHandles.filter (fun k => decide (¬ k ∈ ids))) st1 hnd
  obtain ⟨hcfg2, hnd2, hkeys2, hstarts⟩ :=
    runShardOps_startShard (ids.filter (fun k => decide (¬ k ∈ st1.shardHandles)))
      (runShardOps stopShard st1
        (st1.shardHandles.filter (fun k => decide (¬ k ∈ ids)))).1 hnd1
  rw [hdef]
  constructor
  · intro x
    rw [hkeys2 x, hkeys1 x]
    simp only [List.mem_filter, decide_eq_true_eq]
    by_cases hx : x ∈ st1.shardHandles <;> by_cases hi : x ∈ ids <;> simp [hx, hi]
  · have hfs : ∀ l : List ShardOp, (∀ op ∈ l, op.isStop = true) →
        l.filter (fun op => op.isStop) = l ∧ l.filter (fun op => !op.isStop) = [] := by
      intro l hl
      constructor
      · exact List.filter_eq_self.mpr (fun op hop => hl op hop)
      · exact List.filter_eq_nil_iff.mpr (fun op hop => by simp [hl op hop])
    have hgs : ∀ l : List ShardOp, (∀ op ∈ l, op.isStop = false) →
        l.filter (fun op => op.isStop) = [] ∧ l.filter (fun op => !op.isStop) = l := by
      intro l hl
      constructor
      · exact List.filter_eq_nil_iff.mpr (fun op hop => by simp [hl op hop])
      · exact List.filter_eq_self.mpr (fun op hop => by simp [hl op hop])
    obtain ⟨h1, h2⟩ := hfs _ hstops
    obtain ⟨h3, h4⟩ := hgs _ hstarts
    rw [List.filter_append, List.filter_append, h1, h2, h3, h4, List.append_nil,
      List.nil_append]

/-- C7.  Every successful `update_shards(new_total)` call on a manager whose
key set is duplicate-free leaves the key set of `shard_handles` equal to the
newly computed desired shard-id set — no stale keys remain, no missing keys
remain — and the emitted operation sequence is exactly its stop operations
followed by its start operations, so every `stop_shard` issued by the update
precedes every `start_shard` it issues. -/
theorem updateShards_keys_eq_desired (st : ManagerState) (newTotal : Nat)
    (st' : ManagerState) (ops : List ShardOp)
    (hnd : st.shardHandles.Nodup)
    (h : updateShards st newTotal = some (st', ops)) :
    ∃ ids, shardManagerShardIds { st.config with totalShards := newTotal } = some ids ∧
      (∀ x, x ∈ st'.shardHandles ↔ x ∈ ids) ∧
      ops = ops.filter (fun op => op.isStop) ++ ops.filter (fun op => !op.isStop) := by
  unfold updateShards at h
  rcases hids : shardManagerShardIds { st.config with totalShards := newTotal } with _ | ids
  · rw [hids] at h
    simp at h
  · rw [hids] at h
    simp only [Option.some.injEq] at h
    obtain ⟨hkeys, hsplit⟩ :=
      updateShardsDiff_spec { st with config := { st.config with totalShards := newTotal } }
        ids hnd
    rw [h] at hkeys hsplit
    exact ⟨ids, rfl, hkeys, hsplit⟩

/-- Witness for C7: a worker configured for shards `[2, 4]` holding sessions
`{2, 3, 5}` receives `update_shards(6)`; afterwards its key set is exactly
the desired `[2, 3, 4]` and the emitted operations are the stops followed by
the starts. -/
theorem updateShards_keys_eq_desired_witness :
    ∃ ids, shardManagerShardIds
        { natsUrl := "nats://localhost:4222", discordToken := "t", shardIdStart := 2,
          shardIdEnd := 4, totalShards := 6, workerId := "stratum-group-1",
          maxConcurrency := 1 } = some ids ∧
      (∀ x, x ∈ (ManagerState.mk
          { natsUrl := "nats://localhost:4222", discordToken := "t", shardIdStart := 2,
            shardIdEnd := 4, totalShards := 6, workerId := "stratum-group-1",
            maxConcurrency := 1 } [4, 2, 3]).shardHandles ↔ x ∈ ids) ∧
      [ShardOp.start 4] = [ShardOp.start 4].filter (fun op => op.isStop)
        ++ [ShardOp.start 4].filter (fun op => !op.isStop) :=
  updateShards_keys_eq_desired
    (ManagerState.mk
      { natsUrl := "nats://localhost:4222", discordToken := "t", shardIdStart := 2,
        shardIdEnd := 4, totalShards := 4, workerId := "stratum-group-1",
        maxConcurrency := 1 } [2, 3])
    6
    (ManagerState.mk
      { natsUrl := "nats://localhost:4222", discordToken := "t", shardIdStart := 2,
        shardIdEnd := 4, totalShards := 6, workerId := "stratum-group-1",
        maxConcurrency := 1 } [4, 2, 3])
    [ShardOp.start 4]
    (by decide)
    (by decide)

/-- Counterexample for C2 as stated.  A worker configured with
`shard_id_start = 2`, `shard_id_end = 3` holding sessions `{2, 3}` receives
`update_shards(1)`.  The desired set computed by `new_shard_manager_config`
is still `2..=3` — it is never intersected with the total shard count — so
the key set afterwards is still `[2, 3]`, yet the claimed invariant
`[shard_id_start, shard_id_end] ∩ [0, new_total)` demands the empty set:
the retained key `2` fails `2 < 1`.  The worker still holds sessions even
though `new_total ≤ shard_id_start`. -/
theorem updateShards_keys_not_intersected_counterexample :
    (updateShards
      (ManagerState.mk
        { natsUrl := "nats://localhost:4222", discordToken := "t", shardIdStart := 2,
          shardIdEnd := 3, totalShards := 4, workerId := "stratum-group-1",
          maxConcurrency := 1 } [2, 3])
      1).map (fun p => p.1.shardHandles) = some [2, 3]
    ∧ ¬ ((2 : Nat) < 1) := by
  exact ⟨by decide, by decide⟩

/-- C2 (amended).  After any successful `update_shards(new_total)` call on a
duplicate-free session map, the key set of the shard-session map equals the
full configured range `[config.shard_id_start, config.shard_id_end]`,
independent of `new_total`: the worker's desired set is never intersected
with the current total shard count, so a worker whose configured range lies
at or above `new_total` keeps all its sessions. -/
theorem updateShards_keys_eq_cfg_range (st : ManagerState) (newTotal : Nat)
    (hnd : st.shardHandles.Nodup)
    (hov : st.config.shardIdEnd + 1 < u32Bound) :
    ∃ st' ops, updateShards st newTotal = some (st', ops) ∧
      ∀ x, x ∈ st'.shardHandles ↔
        st.config.shardIdStart ≤ x ∧ x ≤ st.config.shardIdEnd := by
  have hids : shardManagerShardIds { st.config with totalShards := newTotal }
      = some (List.range' st.config.shardIdStart
          (st.config.shardIdEnd + 1 - st.config.shardIdStart)) := by
    unfold shardManagerShardIds
    rw [if_pos]
    exact hov
  obtain ⟨hkeys, _⟩ :=
    updateShardsDiff_spec { st with config := { st.config with totalShards := newTotal } }
      (List.range' st.config.shardIdStart
        (st.config.shardIdEnd + 1 - st.config.shardIdStart)) hnd
  refine ⟨(updateShardsDiff { st with config := { st.config with totalShards := newTotal } }
      (List.range' st.config.shardIdStart (st.config.shardIdEnd + 1 - st.config.shardIdStart))).1,
    (updateShardsDiff { st with config := { st.config with totalShards := newTotal } }
      (List.range' st.config.shardIdStart (st.config.shardIdEnd + 1 - st.config.shardIdStart))).2,
    ?_, ?_⟩
  · unfold updateShards
    rw [hids]
  · intro x
    rw [hkeys x, List.mem_range'_1]
    omega

/-- Witness for C2 (amended): the counterexample worker (range `[2, 3]`,
sessions `{2, 3}`) after `update_shards(1)` holds exactly the configured
range `[2, 3]`. -/
theorem updateShards_keys_eq_cfg_range_witness :
    ∃ st' ops, updateShards
      (ManagerState.mk
        { natsUrl := "nats://localhost:4222", discordToken := "t", shardIdStart := 2,
          shardIdEnd := 3, totalShards := 4, workerId := "stratum-group-1",
          maxConcurrency := 1 } [2, 3])
      1 = some (st', ops) ∧
      ∀ x, x ∈ st'.shardHandles ↔ 2 ≤ x ∧ x ≤ 3 :=
  updateShards_keys_eq_cfg_range
    (ManagerState.mk
      { natsUrl := "nats://localhost:4222", discordToken := "t", shardIdStart := 2,
        shardIdEnd := 3, totalShards := 4, workerId := "stratum-group-1",
        maxConcurrency := 1 } [2, 3])
    1 (by decide) (by decide)

/-- Requeue action of the kube controller runtime
(`kube::runtime::controller::Action`): the only constructor used by the
reconciler and its error policy is `requeue(duration)`, recorded in
seconds. -/
inductive KubeAction where
  | requeue (secs : Nat)
  deriving DecidableEq, Repr

/-- Rust `str::starts_with` on character lists. -/
def startsWithList : List Char → List Char → Bool
  | [], _ => true
  | _ :: _, [] => false
  | a :: as, b :: bs => a == b && startsWithList as bs

/-- Rust `str::contains` on character lists: the needle occurs at some
position of the haystack. -/
def occursIn : List Char → List Char → Bool
  | needle, [] => startsWithList needle []
  | needle, b :: t => startsWithList needle (b :: t) || occursIn needle t

/-- Rust `str::contains` on strings. -/
def strContains (hay needle : String) : Bool := occursIn needle.data hay.data

/-- `error_policy` (`crust/src/controller.rs`): requeue after 5 minutes when
the error's string form contains `"429"` or `"rate limit"`, otherwise after
2 minutes. -/
def error_policy (err : String) : KubeAction :=
  if strContains err "429" || strContains err "rate limit" then KubeAction.requeue 300
  else KubeAction.requeue 120

/-- The prefix scan decides exactly prefix decomposition. -/
theorem startsWithList_iff (n : List Char) : ∀ h : List Char,
    startsWithList n h = true ↔ ∃ t, h = n ++ t := by
  induction n with
  | nil =>
    intro h
    simp [startsWithList]
  | cons a as ih =>
    intro h
    cases h with
    | nil =>
      simp [startsWithList]
    | cons b bs =>
      simp only [startsWithList, Bool.and_eq_true, beq_iff_eq, ih bs, List.cons_append,
        List.cons.injEq]
      constructor
      · rintro ⟨rfl, t, rfl⟩
        exact ⟨t, rfl, rfl⟩
      · rintro ⟨t, rfl, rfl⟩
        exact ⟨rfl, t, rfl⟩

/-- The containment scan decides exactly substring decomposition. -/
theorem occursIn_iff (n : List Char) : ∀ h : List Char,
    occursIn n h = true ↔ ∃ p t, h = p ++ n ++ t := by
  intro h
  induction h with
  | nil =>
    simp only [occursIn, startsWithList_iff]
    constructor
    · rintro ⟨t, ht⟩
      exact ⟨[], t, by simpa using ht⟩
    · rintro ⟨p, t, ht⟩
      rcases List.append_eq_nil.mp (List.append_eq_nil.mp ht.symm).1 with ⟨rfl, rfl⟩
      exact ⟨t, by simpa using ht⟩
  | cons b bs ih =>
    simp only [occursIn, Bool.or_eq_true, startsWithList_iff, ih]
    constructor
    · rintro (⟨t, ht⟩ | ⟨p, t, ht⟩)
      · exact ⟨[], t, by simpa using ht⟩
      · exact ⟨b :: p, t, by simp [ht]⟩
    · rintro ⟨p, t, ht⟩
      cases p with
      | nil =>
        exact Or.inl ⟨t, by simpa using ht⟩
      | cons c cs =>
        simp only [List.cons_append, List.cons.injEq] at ht
        exact Or.inr ⟨cs, t, ht.2⟩

/-- C8.  For every error value reaching the reconciler's error policy, the
policy returns `requeue_after(5 min)` when the error's string form contains
the substring `"429"` or the substring `"rate limit"`, and
`requeue_after(2 min)` for every other error. -/
theorem error_policy_spec (e : String) :
    (((∃ p t, e.data = p ++ "429".data ++ t) ∨ (∃ p t, e.data = p ++ "rate limit".data ++ t)) →
      error_policy e = KubeAction.requeue 300) ∧
    (¬ ((∃ p t, e.data = p ++ "429".data ++ t) ∨ (∃ p t, e.data = p ++ "rate limit".data ++ t)) →
      error_policy e = KubeAction.requeue 120) := by
  have hcond : (strContains e "429" || strContains e "rate limit") = true ↔
      ((∃ p t, e.data = p ++ "429".data ++ t) ∨ (∃ p t, e.data = p ++ "rate limit".data ++ t)) := by
    simp only [Bool.or_eq_true, strContains, occursIn_iff]
  constructor
  · intro hyes
    unfold error_policy
    rw [if_pos (hcond.mpr hyes)]
  · intro hno
    unfold error_policy
    rw [if_neg (fun hb => hno (hcond.mp hb))]

/-- Witness for C8: the error string `"HTTP 429 Too Many Requests"` contains
`"429"`, so the policy requeues after 300 seconds. -/
theorem error_policy_spec_witness :
    error_policy "HTTP 429 Too Many Requests" = KubeAction.requeue 300 :=
  (error_policy_spec "HTTP 429 Too Many Requests").1
    (Or.inl ⟨"HTTP ".data, " Too Many Requests".data, by decide⟩)

/-- Upper bound of `u64` plus one: `2^64`. -/
def u64Bound : Nat := 18446744073709551616

/-- A `serde_json` number: `serde_json::Number` holds a non-negative integer
fitting `u64`, a negative integer fitting `i64`, or a float (on which
`as_u64` always fails, so its value is irrelevant to the handler). -/
inductive JsonNum where
  | uint (n : Nat)
  | int (n : Int)
  | float
  deriving DecidableEq, Repr

/-- A decoded `serde_json::Value`. -/
inductive JsonValue where
  | null
  | bool (b : Bool)
  | num (n : JsonNum)
  | str (s : String)
  | arr (xs : List JsonValue)
  | obj (fields : List (String × JsonValue))

/-- `serde_json::Value::get(key)` on an object: the value of the first field
with the given key; `None` on non-objects. -/
def jsonGet (v : JsonValue) (k : String) : Option JsonValue :=
  match v with
  | .obj fs => (fs.find? (fun p => p.1 == k)).map (fun p => p.2)
  | _ => none

/-- `serde_json::Value::as_str`. -/
def jsonAsStr : JsonValue → Option String
  | .str s => some s
  | _ => none

/-- `serde_json::Value::as_u64`: only a non-negative integer number
produces a value. -/
def jsonAsU64 : JsonValue → Option Nat
  | .num (.uint n) => some n
  | _ => none

/-- The body of one iteration of `listen_for_reshard_signals`
(`stratum/src/coordination.rs`) on a successfully decoded payload.
Requires `event == "reshard"` and a `new_shard_count` accepted by `as_u64`,
then calls `update_shards(new_shard_count as u32)` — a `u64 → u32`
`as`-cast, i.e. truncation modulo `2^32`.  Returns the argument passed to
`update_shards`, or `none` when no call is made. -/
def handleDecodedReshard (v : JsonValue) : Option Nat :=
  match (jsonGet v "event").bind jsonAsStr with
  | some e =>
    if e == "reshard" then
      match (jsonGet v "new_shard_count").bind jsonAsU64 with
      | some n => some (n % u32Bound)
      | none => none
    else none
  | none => none

/-- One iteration of `listen_for_reshard_signals` on a received message,
where `none` models a payload that failed JSON decoding (`serde_json::from_slice`
error: the message is only logged). -/
def handleReshardMessage : Option JsonValue → Option Nat
  | none => none
  | some v => handleDecodedReshard v

/-- The subscription loop of `listen_for_reshard_signals`: each received
message is handled independently; a message that produces no
`update_shards` call (and likewise an `update_shards` error, which is only
logged) never terminates the loop, which runs to the end of the
subscription stream.  The result lists the arguments of the
`update_shards` calls made, in order. -/
def listenForReshardSignals (msgs : List (Option JsonValue)) : List Nat :=
  msgs.filterMap handleReshardMessage

/-- C10.  A reshard message whose JSON decodes to an object with
`event == "reshard"` and a non-negative integer `new_shard_count = n`
(necessarily `n < 2^64` to be representable) triggers exactly one
`update_shards` call with argument `n mod 2^32` — a value above `u32::MAX`
is truncated by the `as`-cast, not rejected; and a message that fails
JSON decoding or either field check causes no `update_shards` call and
does not terminate the listener loop. -/
theorem handleReshard_truncates_and_skips :
    (∀ (v : JsonValue) (n : Nat), n < u64Bound →
      jsonGet v "event" = some (JsonValue.str "reshard") →
      jsonGet v "new_shard_count" = some (JsonValue.num (JsonNum.uint n)) →
      handleReshardMessage (some v) = some (n % u32Bound)) ∧
    (∀ (m : Option JsonValue) (rest : List (Option JsonValue)),
      handleReshardMessage m = none →
      listenForReshardSignals (m :: rest) = listenForReshardSignals rest) := by
  constructor
  · intro v n _ hev hcount
    show handleDecodedReshard v = some (n % u32Bound)
    unfold handleDecodedReshard
    rw [hev, hcount]
    simp [jsonAsStr, jsonAsU64]
  · intro m rest hm
    unfold listenForReshardSignals
    rw [List.filterMap_cons, hm]

/-- Witness for C10: a message with `new_shard_count = 2^32 + 5` is accepted
and truncated (`4294967301 mod 2^32 = 5`), and a message with a wrong
`event` field is dropped without stopping the loop. -/
theorem handleReshard_truncates_and_skips_witness :
    handleReshardMessage (some (JsonValue.obj
      [("event", JsonValue.str "reshard"),
       ("new_shard_count", JsonValue.num (JsonNum.uint 4294967301))]))
      = some (4294967301 % u32Bound) ∧
    listenForReshardSignals (some (JsonValue.obj [("event", JsonValue.str "noise")]) ::
        [some (JsonValue.obj
          [("event", JsonValue.str "reshard"),
           ("new_shard_count", JsonValue.num (JsonNum.uint 6))])])
      = listenForReshardSignals [some (JsonValue.obj
          [("event", JsonValue.str "reshard"),
           ("new_shard_count", JsonValue.num (JsonNum.uint 6))])] :=
  ⟨handleReshard_truncates_and_skips.1 _ 4294967301 (by decide) rfl rfl,
   handleReshard_truncates_and_skips.2 _ _ rfl⟩

/-- State of a `backoff::ExponentialBackoff` with the crate's `Default`
parameters, as used by every publish retry in `stratum/src/runner.rs`:
initial interval 500 ms, randomization factor 0.5, multiplier 1.5, maximum
interval 60 s, and a maximum elapsed time of 900 s (15 minutes).  Times are
in milliseconds; `elapsedMs` is the time spent sleeping between attempts
(operations themselves are modelled as instantaneous). -/
structure BackoffState where
  currentInterval : Rat
  elapsedMs : Rat
  deriving DecidableEq, Repr

/-- Fresh `ExponentialBackoff::default()`. -/
def backoffInit : BackoffState := { currentInterval := 500, elapsedMs := 0 }

/-- `max_interval`: 60 000 ms. -/
def backoffMaxIntervalMs : Rat := 60000

/-- `max_elapsed_time`: 900 000 ms (15 minutes). -/
def backoffMaxElapsedMs : Rat := 900000

/-- `multiplier`: 1.5. -/
def backoffMultNum : Rat := 3 / 2

/-- `ExponentialBackoff::next_backoff`: once the elapsed time exceeds
`max_elapsed_time`, no further retry is granted; otherwise the next sleep is
the randomized current interval (the caller supplies the sampled value `r`)
and the current interval grows by the multiplier, capped at
`max_interval`. -/
def nextBackoff (s : BackoffState) (r : Rat) : Option (Rat × BackoffState) :=
  if backoffMaxElapsedMs < s.elapsedMs then none
  else some (r, { currentInterval := min (s.currentInterval * backoffMultNum) backoffMaxIntervalMs,
                  elapsedMs := s.elapsedMs + r })

/-- A randomization policy is legal when, on every reachable state (the
current interval never drops below its initial 500 ms), the sampled sleep
lies within `randomization_factor = 0.5` of the current interval:
`[0.5·interval, 1.5·interval]`. -/
def legalRand (rand : BackoffState → Rat) : Prop :=
  ∀ s : BackoffState, 500 ≤ s.currentInterval →
    s.currentInterval / 2 ≤ rand s ∧ rand s ≤ s.currentInterval * backoffMultNum

/-- The adversarial policy that always samples the largest legal sleep. -/
def maxRandChoice (s : BackoffState) : Rat := s.currentInterval * backoffMultNum

/-- `backoff::future::retry`: run the operation (attempt `attempt`); on
success stop; on a transient error consult `next_backoff` — if no retry is
granted return the error, otherwise sleep and loop.  Returns
`(succeeded, attempts made)`; the fuel is an embedding artifact and `none`
(fuel exhaustion) is unreachable for fuel `> 3601` (see
`retryGo_ne_none`). -/
def retryGo (ok : Nat → Bool) (rand : BackoffState → Rat) :
    Nat → BackoffState → Nat → Option (Bool × Nat)
  | 0, _, _ => none
  | fuel + 1, s, attempt =>
    if ok attempt then some (true, attempt + 1)
    else
      match nextBackoff s (rand s) with
      | none => some (false, attempt + 1)
      | some (_, s2) => retryGo ok rand fuel s2 (attempt + 1)

/-- A publish wrapped in `retry(ExponentialBackoff::default(), op)` as in
`stratum/src/runner.rs`: fresh backoff state, fuel amply above the
3600-step bound implied by the 15-minute budget and ≥ 250 ms sleeps. -/
def retryPublish (ok : Nat → Bool) (rand : BackoffState → Rat) : Option (Bool × Nat) :=
  retryGo ok rand 4000 backoffInit 0

/-- The maximal sampled sleep is legal. -/
theorem maxRandChoice_legal : legalRand maxRandChoice := by
  intro s hs
  unfold maxRandChoice backoffMultNum
  constructor
  · linarith
  · linarith

/-- With any legal randomization, the retry loop always returns within the
fuel bound: every granted sleep is at least 250 ms, so after at most 3600
sleeps the 900 s budget is exhausted. -/
theorem retryGo_ne_none (ok : Nat → Bool) (rand : BackoffState → Rat)
    (hl : legalRand rand) :
    ∀ (fuel : Nat) (s : BackoffState) (attempt : Nat), 500 ≤ s.currentInterval → 1 ≤ fuel →
      backoffMaxElapsedMs + 250 < 250 * (fuel : Rat) + s.elapsedMs →
      retryGo ok rand fuel s attempt ≠ none := by
  intro fuel
  induction fuel with
  | zero => intro s attempt _ h1 _; omega
  | succ f ih =>
    intro s attempt hs _ hbudget
    simp only [retryGo]
    by_cases hok : ok attempt
    · simp [hok]
    · simp only [hok, if_false, Bool.false_eq_true]
      unfold nextBackoff
      by_cases helapsed : backoffMaxElapsedMs < s.elapsedMs
      · rw [if_pos helapsed]
        simp
      · rw [if_neg helapsed]
        simp only
        push_neg at helapsed
        obtain ⟨hrlo, _⟩ := hl s hs
        have hr250 : (250 : Rat) ≤ rand s := by
          have : (250 : Rat) ≤ s.currentInterval / 2 := by linarith
          linarith
        have hf1 : 1 ≤ f := by
          by_contra hf0
          have hf0' : f = 0 := by omega
          subst hf0'
          push_cast at hbudget
          unfold backoffMaxElapsedMs at hbudget helapsed
          linarith
        apply ih _ (attempt + 1) _ hf1
        · simp only
          have hcast : ((f + 1 : Nat) : Rat) = (f : Rat) + 1 := by push_cast; ring
          rw [hcast] at hbudget
          linarith
        · simp only
          have h750 : (500 : Rat) ≤ s.currentInterval * backoffMultNum := by
            unfold backoffMultNum
            linarith
          have h60000 : (500 : Rat) ≤ backoffMaxIntervalMs := by
            unfold backoffMaxIntervalMs
            norm_num
          exact le_min h750 h60000

/-- If the operation fails on every attempt, the retry loop never reports
success, and any reported attempt count exceeds the starting attempt
index. -/
theorem retryGo_all_fail (ok : Nat → Bool) (rand : BackoffState → Rat)
    (hok : ∀ a, ok a = false) :
    ∀ (fuel : Nat) (s : BackoffState) (attempt : Nat),
      retryGo ok rand fuel s attempt = none ∨
      ∃ n, retryGo ok rand fuel s attempt = some (false, n) ∧ attempt < n := by
  intro fuel
  induction fuel with
  | zero => intro s attempt; exact Or.inl rfl
  | succ f ih =>
    intro s attempt
    simp only [retryGo, hok attempt, if_false, Bool.false_eq_true]
    rcases hnb : nextBackoff s (rand s) with _ | ⟨r, s2⟩
    · exact Or.inr ⟨attempt + 1, rfl, by omega⟩
    · rcases ih s2 (attempt + 1) with h | ⟨n, hn, hlt⟩
      · exact Or.inl h
      · exact Or.inr ⟨n, hn, by omega⟩

/-- Subject of the per-shard startup announcement
(`discord.shards.<id>.startup`). -/
def startupSubject (id : Nat) : String := "discord.shards." ++ toString id ++ ".startup"

/-- Body of the startup announcement. -/
def startupMessage (id : Nat) : String := "Shard " ++ toString id ++ " is starting"

/-- Subject of the per-shard event forwarding
(`discord.shards.<id>.events`). -/
def eventsSubject (id : Nat) : String := "discord.shards." ++ toString id ++ ".events"

/-- One inbound item observed by the runner's pump
(`shard.next()` in `stratum/src/runner.rs`): a text frame, a close frame,
or a receive error that is or is not of kind `Reconnect`. -/
inductive GatewayItem where
  | text (s : String)
  | close
  | recvErr (reconnect : Bool)

/-- How the runner returns to its supervisor: normal completion of the
stream, the propagated `Reconnect` receive error, or a publish whose retry
budget was exhausted. -/
inductive RunnerResult where
  | ok
  | recvError
  | pubError
  deriving DecidableEq, Repr

/-- The pump loop of `runner` (`stratum/src/runner.rs`).  `pubOk c a` tells
whether publish call `c` (0 = startup announcement, then one per text
frame) succeeds on attempt `a`; the second component collects the
successfully delivered `(subject, payload)` messages in order.  A text
frame is converted to bytes and published with retry to
`discord.shards.<id>.events`; a close frame is skipped; a receive error of
kind `Reconnect` makes the runner return the error; any other receive error
is logged and the pump continues; when the stream ends the runner returns
success.  `none` is fuel exhaustion inside a retry, unreachable under a
legal randomization. -/
def runnerGo (shardId : Nat) (pubOk : Nat → Nat → Bool) (rand : BackoffState → Rat) :
    List GatewayItem → Nat → Option (RunnerResult × List (String × String))
  | [], _ => some (.ok, [])
  | item :: rest, callIdx =>
    match item with
    | .close => runnerGo shardId pubOk rand rest callIdx
    | .recvErr true => some (.recvError, [])
    | .recvErr false => runnerGo shardId pubOk rand rest callIdx
    | .text s =>
      match retryPublish (pubOk callIdx) rand with
      | none => none
      | some (false, _) => some (.pubError, [])
      | some (true, _) =>
        match runnerGo shardId pubOk rand rest (callIdx + 1) with
        | none => none
        | some (r, tr) => some (r, (eventsSubject shardId, s) :: tr)

/-- `runner` (`stratum/src/runner.rs`): publish the startup announcement
`Shard <id> is starting` on `discord.shards.<id>.startup` with retry (a
retry-budget failure is fatal and nothing further runs), then pump the
stream. -/
def runnerModel (shardId : Nat) (events : List GatewayItem) (pubOk : Nat → Nat → Bool)
    (rand : BackoffState → Rat) : Option (RunnerResult × List (String × String)) :=
  match retryPublish (pubOk 0) rand with
  | none => none
  | some (false, _) => some (.pubError, [])
  | some (true, _) =>
    match runnerGo shardId pubOk rand events 1 with
    | none => none
    | some (r, tr) => some (r, (startupSubject shardId, startupMessage shardId) :: tr)

/-- Spec-side description: the text frames received strictly before the
first `Reconnect`-class receive error (close frames and other receive
errors are passed over). -/
def textsBeforeReconnect : List GatewayItem → List String
  | [] => []
  | .text s :: r => s :: textsBeforeReconnect r
  | .close :: r => textsBeforeReconnect r
  | .recvErr true :: _ => []
  | .recvErr false :: r => textsBeforeReconnect r

/-- Spec-side description: whether a `Reconnect`-class receive error occurs
in the stream. -/
def hitsReconnect : List GatewayItem → Bool
  | [] => false
  | .recvErr true :: _ => true
  | .text _ :: r => hitsReconnect r
  | .close :: r => hitsReconnect r
  | .recvErr false :: r => hitsReconnect r

/-- Counterexample for C4 as stated.  With the legal (maximal) randomization
policy and a publish that fails on every attempt, running the retry loop
with recursion allowance 6 exhausts the allowance: all of the first 6
attempts fail and are each granted a further backoff (the elapsed sleep
after 5 maximal delays is 9890.625 ms, far below the 900 000 ms budget), so
the code performs a 6th attempt and keeps going — the retry budget is not
"at most 5 attempts in total". -/
theorem retryGo_more_than_five_attempts_counterexample :
    retryGo (fun _ => false) maxRandChoice 6 backoffInit 0 = none := by
  norm_num [retryGo, nextBackoff, maxRandChoice, backoffInit, backoffMaxElapsedMs,
    backoffMaxIntervalMs, backoffMultNum, min_def]

/-- With any legal randomization, every wrapped publish terminates within
the fuel bound with some outcome. -/
theorem retryPublish_terminates (rand : BackoffState → Rat) (hl : legalRand rand)
    (ok : Nat → Bool) : ∃ r, retryPublish ok rand = some r := by
  have hne : retryPublish ok rand ≠ none := by
    apply retryGo_ne_none ok rand hl 4000 backoffInit 0
    · unfold backoffInit
      norm_num
    · omega
    · unfold backoffInit backoffMaxElapsedMs
      push_cast
      norm_num
  rcases h : retryPublish ok rand with _ | r
  · exact absurd h hne
  · exact ⟨r, rfl⟩

/-- A publish that fails on every attempt exhausts the elapsed-time budget:
its retry terminates and reports failure after at least one attempt. -/
theorem retryPublish_exhausts (ok : Nat → Bool) (rand : BackoffState → Rat)
    (hl : legalRand rand) (hfail : ∀ a, ok a = false) :
    ∃ n, 0 < n ∧ retryPublish ok rand = some (false, n) := by
  obtain ⟨r, hr⟩ := retryPublish_terminates rand hl ok
  rcases retryGo_all_fail ok rand hfail 4000 backoffInit 0 with h | ⟨n, hn, hpos⟩
  · exact absurd (show retryPublish ok rand = none from h) (by simp [hr])
  · exact ⟨n, by omega, hn⟩

/-- If the pump reaches a text frame whose publish fails on every attempt
(all earlier publishes having succeeded within their budgets and no
`Reconnect` error occurring before it), the pump stops and reports the
publish error, having delivered exactly the earlier text frames. -/
theorem runnerGo_pubError (shardId : Nat) (pubOk : Nat → Nat → Bool)
    (rand : BackoffState → Rat) (hl : legalRand rand) :
    ∀ (pre : List GatewayItem) (callIdx : Nat) (s : String) (rest : List GatewayItem),
      hitsReconnect pre = false →
      (∀ j, j < (textsBeforeReconnect pre).length →
        ∃ k, retryPublish (pubOk (callIdx + j)) rand = some (true, k)) →
      (∀ a, pubOk (callIdx + (textsBeforeReconnect pre).length) a = false) →
      runnerGo shardId pubOk rand (pre ++ GatewayItem.text s :: rest) callIdx
        = some (RunnerResult.pubError,
            (textsBeforeReconnect pre).map (fun t => (eventsSubject shardId, t))) := by
  intro pre
  induction pre with
  | nil =>
    intro callIdx s rest _ _ hfail
    obtain ⟨n, _, hn⟩ := retryPublish_exhausts (pubOk (callIdx + 0)) rand hl
      (by simpa [textsBeforeReconnect] using hfail)
    simp only [List.nil_append, runnerGo, textsBeforeReconnect, List.map_nil]
    rw [show retryPublish (pubOk callIdx) rand = some (false, n) from by simpa using hn]
  | cons item pre2 ih =>
    intro callIdx s rest hrec hsucc hfail
    cases item with
    | close =>
      simp only [List.cons_append, runnerGo]
      exact ih callIdx s rest (by simpa [hitsReconnect] using hrec)
        (by simpa [textsBeforeReconnect] using hsucc)
        (by simpa [textsBeforeReconnect] using hfail)
    | recvErr b =>
      cases b with
      | true => simp [hitsReconnect] at hrec
      | false =>
        simp only [List.cons_append, runnerGo]
        exact ih callIdx s rest (by simpa [hitsReconnect] using hrec)
          (by simpa [textsBeforeReconnect] using hsucc)
          (by simpa [textsBeforeReconnect] using hfail)
    | text t =>
      obtain ⟨k, hk⟩ := hsucc 0 (by simp [textsBeforeReconnect])
      have hsucc2 : ∀ j, j < (textsBeforeReconnect pre2).length →
          ∃ k2, retryPublish (pubOk (callIdx + 1 + j)) rand = some (true, k2) := by
        intro j hj
        have hidx : callIdx + 1 + j = callIdx + (j + 1) := by omega
        rw [hidx]
        exact hsucc (j + 1) (by simp [textsBeforeReconnect]; omega)
      have hfail2 : ∀ a, pubOk (callIdx + 1 + (textsBeforeReconnect pre2).length) a = false := by
        intro a
        have hidx : callIdx + 1 + (textsBeforeReconnect pre2).length
            = callIdx + (textsBeforeReconnect (GatewayItem.text t :: pre2)).length := by
          simp [textsBeforeReconnect]
          omega
        rw [hidx]
        exact hfail a
      have hk2 : retryPublish (pubOk callIdx) rand = some (true, k) := by simpa using hk
      simp only [List.cons_append, runnerGo, List.append_eq]
      rw [hk2, ih (callIdx + 1) s rest (by simpa [hitsReconnect] using hrec) hsucc2 hfail2]
      simp [textsBeforeReconnect]

/-- C4 (amended).  Every publish performed by the shard runner — the
startup announcement (call 0) and each event publish (calls 1, 2, …, one
per text frame) — is retried with exponential backoff whose budget is the
`backoff` crate default: an elapsed-time cap of 15 minutes, not an attempt
count (more than 5 attempts are possible), and with any legal randomization
every retry terminates within that budget; a publish that still fails when
the budget is exhausted causes the runner to return an error to its caller:
an always-failing startup publish makes the runner return the publish error
having delivered nothing, and an always-failing event publish for any
reached text frame makes the runner return the publish error having
delivered only the startup announcement and the earlier text frames. -/
theorem runner_publish_retry_budget (shardId : Nat) (pubOk : Nat → Nat → Bool)
    (rand : BackoffState → Rat) (hl : legalRand rand) :
    (∀ ok : Nat → Bool, ∃ r, retryPublish ok rand = some r) ∧
    (∀ events : List GatewayItem, (∀ a, pubOk 0 a = false) →
      ∃ n, 0 < n ∧ retryPublish (pubOk 0) rand = some (false, n) ∧
        runnerModel shardId events pubOk rand = some (RunnerResult.pubError, [])) ∧
    (∀ (pre : List GatewayItem) (s : String) (rest : List GatewayItem),
      hitsReconnect pre = false →
      (∀ c, c ≤ (textsBeforeReconnect pre).length →
        ∃ k, retryPublish (pubOk c) rand = some (true, k)) →
      (∀ a, pubOk ((textsBeforeReconnect pre).length + 1) a = false) →
      ∃ n, 0 < n ∧
        retryPublish (pubOk ((textsBeforeReconnect pre).length + 1)) rand = some (false, n) ∧
        runnerModel shardId (pre ++ GatewayItem.text s :: rest) pubOk rand
          = some (RunnerResult.pubError,
              (startupSubject shardId, startupMessage shardId)
                :: (textsBeforeReconnect pre).map (fun t => (eventsSubject shardId, t)))) := by
  refine ⟨retryPublish_terminates rand hl, ?_, ?_⟩
  · intro events hfail
    obtain ⟨n, hn0, hn⟩ := retryPublish_exhausts (pubOk 0) rand hl hfail
    refine ⟨n, hn0, hn, ?_⟩
    unfold runnerModel
    rw [hn]
  · intro pre s rest hrec hsucc hfail
    obtain ⟨n, hn0, hn⟩ :=
      retryPublish_exhausts (pubOk ((textsBeforeReconnect pre).length + 1)) rand hl hfail
    refine ⟨n, hn0, hn, ?_⟩
    obtain ⟨k0, hk0⟩ := hsucc 0 (Nat.zero_le _)
    have hgo := runnerGo_pubError shardId pubOk rand hl pre 1 s rest hrec
      (fun j hj => by
        have hidx : (1 : Nat) + j = j + 1 := by omega
        rw [hidx]
        exact hsucc (j + 1) (by omega))
      (fun a => by
        have hidx : (1 : Nat) + (textsBeforeReconnect pre).length
            = (textsBeforeReconnect pre).length + 1 := by omega
        rw [hidx]
        exact hfail a)
    unfold runnerModel
    rw [hk0, hgo]

/-- Witness for C4 (amended): on shard 0, the startup publish succeeds on
its first attempt but the first event publish (call 1) fails on every
attempt; the retry reports failure after some positive number of attempts
and the runner returns the publish error having delivered only the startup
announcement. -/
theorem runner_publish_retry_budget_witness :
    ∃ n, 0 < n ∧
      retryPublish ((fun c _ => c == 0) ((textsBeforeReconnect []).length + 1)) maxRandChoice
        = some (false, n) ∧
      runnerModel 0 ([] ++ GatewayItem.text "x" :: []) (fun c _ => c == 0) maxRandChoice
        = some (RunnerResult.pubError,
            (startupSubject 0, startupMessage 0)
              :: (textsBeforeReconnect []).map (fun t => (eventsSubject 0, t))) :=
  (runner_publish_retry_budget 0 (fun c _ => c == 0) maxRandChoice maxRandChoice_legal).2.2
    [] "x" [] rfl
    (fun c hc => by
      have hc0 : c = 0 := by simpa [textsBeforeReconnect] using hc
      subst hc0
      exact ⟨1, rfl⟩)
    (fun _ => rfl)

/-- The pump loop: when every event publish succeeds within its retry
budget, the delivered messages are exactly the text frames received before
the first `Reconnect` error, in order, on the events subject; the pump
returns the receive error iff such an error occurs, success otherwise. -/
theorem runnerGo_spec (shardId : Nat) (pubOk : Nat → Nat → Bool) (rand : BackoffState → Rat)
    (H : ∀ c, ∃ k, retryPublish (pubOk c) rand = some (true, k)) :
    ∀ (events : List GatewayItem) (callIdx : Nat),
      runnerGo shardId pubOk rand events callIdx
        = some ((if hitsReconnect events then RunnerResult.recvError else RunnerResult.ok),
            (textsBeforeReconnect events).map (fun s => (eventsSubject shardId, s))) := by
  intro events
  induction events with
  | nil =>
    intro callIdx
    simp [runnerGo, hitsReconnect, textsBeforeReconnect]
  | cons item rest ih =>
    intro callIdx
    cases item with
    | close =>
      simp only [runnerGo, ih callIdx, hitsReconnect, textsBeforeReconnect]
    | recvErr b =>
      cases b with
      | true => simp [runnerGo, hitsReconnect, textsBeforeReconnect]
      | false => simp only [runnerGo, ih callIdx, hitsReconnect, textsBeforeReconnect]
    | text s =>
      obtain ⟨k, hk⟩ := H callIdx
      simp only [runnerGo, hk, ih (callIdx + 1), hitsReconnect, textsBeforeReconnect,
        List.map_cons]

/-- C6.  For every inbound item received by the shard runner on shard `i`
(assuming each issued publish succeeds within its retry budget): a text
frame is published verbatim to `discord.shards.<i>.events` exactly once, in
stream order, before the next frame is processed; a close frame produces no
publish and does not terminate the pump; a receive error of kind
`Reconnect` makes the runner return the error; any other receive-error kind
is logged and the pump continues; and when the stream ends normally the
runner returns success.  The startup announcement is delivered first. -/
theorem runner_pump_spec (shardId : Nat) (events : List GatewayItem)
    (pubOk : Nat → Nat → Bool) (rand : BackoffState → Rat)
    (H : ∀ c, ∃ k, retryPublish (pubOk c) rand = some (true, k)) :
    runnerModel shardId events pubOk rand
      = some ((if hitsReconnect events then RunnerResult.recvError else RunnerResult.ok),
          (startupSubject shardId, startupMessage shardId)
            :: (textsBeforeReconnect events).map (fun s => (eventsSubject shardId, s))) := by
  obtain ⟨k, hk⟩ := H 0
  unfold runnerModel
  rw [hk, runnerGo_spec shardId pubOk rand H events 1]

/-- Witness for C6: on shard 3, the stream
`[text "a", close, transient error, text "b", Reconnect, text "c"]` with
always-succeeding publishes delivers the startup announcement then exactly
`"a"` and `"b"` on the events subject and returns the receive error; the
close frame, the transient error, and everything after the Reconnect
produce nothing. -/
theorem runner_pump_spec_witness :
    runnerModel 3 [GatewayItem.text "a", GatewayItem.close, GatewayItem.recvErr false,
        GatewayItem.text "b", GatewayItem.recvErr true, GatewayItem.text "c"]
      (fun _ _ => true) maxRandChoice
      = some (RunnerResult.recvError,
          [(startupSubject 3, startupMessage 3), (eventsSubject 3, "a"),
           (eventsSubject 3, "b")]) := by
  have h := runner_pump_spec 3
    [GatewayItem.text "a", GatewayItem.close, GatewayItem.recvErr false,
     GatewayItem.text "b", GatewayItem.recvErr true, GatewayItem.text "c"]
    (fun _ _ => true) maxRandChoice (fun c => ⟨1, rfl⟩)
  simpa [hitsReconnect, textsBeforeReconnect] using h

/-- Mirrors `ShardClusterSpec` from `crust/src/types.rs`. -/
structure ShardClusterSpec where
  discordTokenSecret : String
  natsUrl : String
  image : String
  replicasPerShardGroup : Int
  shardsPerReplica : Nat
  reshardIntervalHours : Nat
  deriving DecidableEq, Repr

/-- Mirrors `ShardClusterStatus` from `crust/src/types.rs`; `last_reshard`
is a `DateTime<Utc>` recorded as unix seconds. -/
structure ShardClusterStatus where
  currentShards : Option Nat
  lastReshard : Option Int
  shardGroups : List ShardGroup
  phase : String
  deriving DecidableEq, Repr

/-- A `ShardCluster` resource (name plus spec and optional status; the
namespace only scopes API calls and plays no role in the claims). -/
structure ShardCluster where
  name : String
  spec : ShardClusterSpec
  status : Option ShardClusterStatus
  deriving DecidableEq, Repr

/-- Oracle for one `reconcile` run: the current time and the outcome of
every external call the reconciler can make, so that `reconcile` is a pure
function of the cluster and this world. -/
structure ReconcileWorld where
  now : Int
  secretToken : Except String String
  gatewayInfo : Except String (Nat × Nat)
  existingDeployments : Except String (List String)
  deploymentExists : String → Bool
  patchDeploymentResult : String → Except String Unit
  createDeploymentResult : String → Except String Unit
  deleteDeploymentResult : String → Except String Unit
  publishReshardResult : Except String Unit
  publishStartupResult : Except String Unit
  patchStatusResult : Except String Unit

/-- An external call issued (attempted) by the reconciler, in order. -/
inductive Effect where
  | secretGet (name : String)
  | gatewayCall
  | listDeployments (selector : String)
  | getDeployment (name : String)
  | patchDeployment (name : String)
  | createDeployment (name : String)
  | deleteDeployment (name : String)
  | publishReshard (newShardCount : Nat)
  | publishStartup (cluster : String) (maxConcurrency : Nat) (totalShards : Nat)
      (groups : List ShardGroup)
  | patchStatus (st : ShardClusterStatus)
  deriving DecidableEq, Repr

/-- Outcome of a `reconcile` run: a returned action, a returned error, or a
Rust panic (which returns nothing). -/
inductive ReconcileResult where
  | ok (action : KubeAction)
  | err (e : String)
  | panic
  deriving DecidableEq, Repr

/-- The rate-limit guard of `reconcile` (`crust/src/controller.rs`): a
present `status.last_reshard` strictly less than 10 whole minutes old.
`chrono`'s `num_minutes` truncates toward zero, modelled by `Int.div`. -/
def recentReshard (status : Option ShardClusterStatus) (now : Int) : Bool :=
  match status with
  | none => false
  | some st =>
    match st.lastReshard with
    | none => false
    | some t => decide (Int.tdiv (now - t) 60 < 10)

/-- The label selector used by `create_or_update_deployments`
(`crust/src/kubernetes.rs`). -/
def labelSelector (clusterName : String) : String :=
  "managed-by=crust-operator,app=stratum,cluster=" ++ clusterName

/-- The per-group loop of `create_or_update_deployments`
(`crust/src/kubernetes.rs`): for each desired group, `get` the deployment;
on success patch-merge it, on failure create it; a patch/create error
aborts the whole reconcile. -/
def applyGroups (w : ReconcileWorld) : List ShardGroup → Except String Unit × List Effect
  | [] => (Except.ok (), [])
  | g :: rest =>
    if w.deploymentExists g.deploymentName then
      match w.patchDeploymentResult g.deploymentName with
      | .error e =>
        (.error e, [.getDeployment g.deploymentName, .patchDeployment g.deploymentName])
      | .ok _ =>
        ((applyGroups w rest).1,
         .getDeployment g.deploymentName :: .patchDeployment g.deploymentName
           :: (applyGroups w rest).2)
    else
      match w.createDeploymentResult g.deploymentName with
      | .error e =>
        (.error e, [.getDeployment g.deploymentName, .createDeployment g.deploymentName])
      | .ok _ =>
        ((applyGroups w rest).1,
         .getDeployment g.deploymentName :: .createDeployment g.deploymentName
           :: (applyGroups w rest).2)

/-- The deletion loop of `create_or_update_deployments`: delete every
listed deployment whose name is not among the desired ones; a delete error
aborts the whole reconcile. -/
def deleteDeployments (w : ReconcileWorld) : List String → Except String Unit × List Effect
  | [] => (Except.ok (), [])
  | n :: rest =>
    match w.deleteDeploymentResult n with
    | .error e => (.error e, [.deleteDeployment n])
    | .ok _ =>
      ((deleteDeployments w rest).1, .deleteDeployment n :: (deleteDeployments w rest).2)

/-- `create_or_update_deployments` (`crust/src/kubernetes.rs`): list the
deployments labelled `managed-by=crust-operator,app=stratum,cluster=<name>`,
create or patch every desired group, then delete every listed deployment
not among the desired names.  (The `HashSet` difference is iterated here in
the order of the listing, which the settled claims do not depend on.) -/
def create_or_update_deployments (w : ReconcileWorld) (clusterName : String)
    (groups : List ShardGroup) : Except String Unit × List Effect :=
  match w.existingDeployments with
  | .error e => (.error e, [.listDeployments (labelSelector clusterName)])
  | .ok existing =>
    match (applyGroups w groups).1 with
    | .error e =>
      (.error e, .listDeployments (labelSelector clusterName) :: (applyGroups w groups).2)
    | .ok _ =>
      ((deleteDeployments w (existing.filter
          (fun n => decide (¬ n ∈ groups.map (fun g => g.deploymentName))))).1,
       .listDeployments (labelSelector clusterName)
         :: ((applyGroups w groups).2
           ++ (deleteDeployments w (existing.filter
              (fun n => decide (¬ n ∈ groups.map (fun g => g.deploymentName))))).2))

/-- The previously recorded group count:
`cluster.status.map(|s| s.shard_groups.len()).unwrap_or(0)`. -/
def clusterGroupCount (c : ShardCluster) : Nat :=
  (c.status.map (fun s => s.shardGroups.length)).getD 0

/-- Steps 6–8 of `reconcile` (`crust/src/controller.rs`): publish the
`reshard` broadcast, publish the `startup_coordination` broadcast, patch
the status to `{current_shards, last_reshard = now, shard_groups,
phase = "Active"}`, and requeue after 30 minutes; any failure propagates. -/
def reconcilePublishPhase (c : ShardCluster) (w : ReconcileWorld)
    (recommendedShards maxConc : Nat) (newGroups : List ShardGroup) :
    ReconcileResult × List Effect :=
  match w.publishReshardResult with
  | .error e => (.err e, [.publishReshard recommendedShards])
  | .ok _ =>
    match w.publishStartupResult with
    | .error e =>
      (.err e, [.publishReshard recommendedShards,
        .publishStartup c.name maxConc recommendedShards newGroups])
    | .ok _ =>
      match w.patchStatusResult with
      | .error e =>
        (.err e, [.publishReshard recommendedShards,
          .publishStartup c.name maxConc recommendedShards newGroups,
          .patchStatus { currentShards := some recommendedShards, lastReshard := some w.now,
                         shardGroups := newGroups, phase := "Active" }])
      | .ok _ =>
        (.ok (.requeue 1800), [.publishReshard recommendedShards,
          .publishStartup c.name maxConc recommendedShards newGroups,
          .patchStatus { currentShards := some recommendedShards, lastReshard := some w.now,
                         shardGroups := newGroups, phase := "Active" }])

/-- `reconcile` (`crust/src/controller.rs`): rate-limit guard on
`status.last_reshard` (requeue 600 s without any external call), then token
secret fetch, vendor gateway call, partitioning, a worker-replica
reconciliation only when the recorded group count differs from the new one,
the two broadcasts, and the status patch; success requeues after 1800 s,
any error propagates to the error policy, and a partitioner overflow panics
(`ReconcileResult.panic`). -/
def reconcile (c : ShardCluster) (w : ReconcileWorld) : ReconcileResult × List Effect :=
  if recentReshard c.status w.now then (.ok (.requeue 600), [])
  else
    match w.secretToken with
    | .error e => (.err e, [.secretGet c.spec.discordTokenSecret])
    | .ok _ =>
      match w.gatewayInfo with
      | .error e => (.err e, [.secretGet c.spec.discordTokenSecret, .gatewayCall])
      | .ok (recommendedShards, maxConc) =>
        match calculate_shard_groups recommendedShards c.spec.shardsPerReplica with
        | none => (.panic, [.secretGet c.spec.discordTokenSecret, .gatewayCall])
        | some newGroups =>
          if clusterGroupCount c ≠ newGroups.length then
            match (create_or_update_deployments w c.name newGroups).1 with
            | .error e =>
              (.err e, .secretGet c.spec.discordTokenSecret :: .gatewayCall
                :: (create_or_update_deployments w c.name newGroups).2)
            | .ok _ =>
              ((reconcilePublishPhase c w recommendedShards maxConc newGroups).1,
               .secretGet c.spec.discordTokenSecret :: .gatewayCall
                 :: ((create_or_update_deployments w c.name newGroups).2
                   ++ (reconcilePublishPhase c w recommendedShards maxConc newGroups).2))
          else
            ((reconcilePublishPhase c w recommendedShards maxConc newGroups).1,
             .secretGet c.spec.discordTokenSecret :: .gatewayCall
               :: (reconcilePublishPhase c w recommendedShards maxConc newGroups).2)

/-- The guard's truncated-minutes test is equivalent to a plain
second-level comparison: `(now - t).num_minutes() < 10` iff
`now - t < 600 s`. -/
theorem tdiv_sixty_lt_ten_iff (d : Int) : Int.tdiv d 60 < 10 ↔ d < 600 := by
  by_cases hd : 0 ≤ d
  · rw [Int.tdiv_eq_ediv hd (by norm_num)]
    omega
  · push_neg at hd
    have hle : Int.tdiv d 60 ≤ 0 := by
      have h1 : (0 : Int) ≤ -d := by omega
      have h2 := Int.tdiv_nonneg h1 (by norm_num : (0 : Int) ≤ 60)
      rw [Int.neg_tdiv] at h2
      omega
    constructor
    · intro _; omega
    · intro _; omega

/-- C3.  Every reconcile call on a cluster whose `status.last_reshard`
exists and is less than 10 minutes old returns `requeue_after(10 min)` with
an empty effect trace: no vendor API call, no replica mutation, no bus
publish, and no status patch. -/
theorem reconcile_rate_limit_guard (c : ShardCluster) (w : ReconcileWorld)
    (st : ShardClusterStatus) (t : Int)
    (hst : c.status = some st) (ht : st.lastReshard = some t)
    (hrecent : w.now - t < 600) :
    reconcile c w = (ReconcileResult.ok (KubeAction.requeue 600), []) := by
  have hguard : recentReshard c.status w.now = true := by
    rw [hst]
    show (match st.lastReshard with
      | none => false
      | some t => decide (Int.tdiv (w.now - t) 60 < 10)) = true
    rw [ht]
    show decide (Int.tdiv (w.now - t) 60 < 10) = true
    simp only [decide_eq_true_eq]
    exact (tdiv_sixty_lt_ten_iff (w.now - t)).mpr hrecent
  unfold reconcile
  rw [if_pos hguard]

/-- Witness for C3: a cluster whose last reshard was 100 seconds ago is
requeued for 600 seconds with no effect issued. -/
theorem reconcile_rate_limit_guard_witness :
    reconcile
      (ShardCluster.mk "main"
        (ShardClusterSpec.mk "discord-token" "nats://localhost:4222" "stratum:latest" 1 2 6)
        (some (ShardClusterStatus.mk (some 4) (some 1000) [] "Active")))
      (ReconcileWorld.mk 1100 (Except.ok "tok") (Except.ok (4, 1)) (Except.ok [])
        (fun _ => true) (fun _ => Except.ok ()) (fun _ => Except.ok ())
        (fun _ => Except.ok ()) (Except.ok ()) (Except.ok ()) (Except.ok ()))
      = (ReconcileResult.ok (KubeAction.requeue 600), []) :=
  reconcile_rate_limit_guard _ _ (ShardClusterStatus.mk (some 4) (some 1000) [] "Active")
    1000 rfl rfl (by decide)

/-- The per-group create/patch loop never emits a status patch. -/
theorem applyGroups_no_patchStatus (w : ReconcileWorld) :
    ∀ (gs : List ShardGroup) (st : ShardClusterStatus),
      ¬ Effect.patchStatus st ∈ (applyGroups w gs).2 := by
  intro gs
  induction gs with
  | nil => intro st; simp [applyGroups]
  | cons g rest ih =>
    intro st
    unfold applyGroups
    by_cases hex : w.deploymentExists g.deploymentName
    · rw [if_pos hex]
      rcases hp : w.patchDeploymentResult g.deploymentName with ep | u
      · simp
      · intro hmem
        simp only [List.mem_cons] at hmem
        rcases hmem with h | h | h
        · exact Effect.noConfusion h
        · exact Effect.noConfusion h
        · exact ih st h
    · rw [if_neg hex]
      rcases hp : w.createDeploymentResult g.deploymentName with ep | u
      · simp
      · intro hmem
        simp only [List.mem_cons] at hmem
        rcases hmem with h | h | h
        · exact Effect.noConfusion h
        · exact Effect.noConfusion h
        · exact ih st h

/-- The deletion loop never emits a status patch. -/
theorem deleteDeployments_no_patchStatus (w : ReconcileWorld) :
    ∀ (ns : List String) (st : ShardClusterStatus),
      ¬ Effect.patchStatus st ∈ (deleteDeployments w ns).2 := by
  intro ns
  induction ns with
  | nil => intro st; simp [deleteDeployments]
  | cons n rest ih =>
    intro st
    unfold deleteDeployments
    rcases hd : w.deleteDeploymentResult n with ep | u
    · simp
    · intro hmem
      simp only [List.mem_cons] at hmem
      rcases hmem with h | h
      · exact Effect.noConfusion h
      · exact ih st h

/-- The whole replica reconciliation never emits a status patch. -/
theorem create_or_update_no_patchStatus (w : ReconcileWorld) (clusterName : String)
    (gs : List ShardGroup) (st : ShardClusterStatus) :
    ¬ Effect.patchStatus st ∈ (create_or_update_deployments w clusterName gs).2 := by
  unfold create_or_update_deployments
  rcases hl : w.existingDeployments with el | existing
  · simp
  · rcases ha : (applyGroups w gs).1 with ea | u
    · intro hmem
      simp only [List.mem_cons] at hmem
      rcases hmem with h | h
      · exact Effect.noConfusion h
      · exact applyGroups_no_patchStatus w gs st h
    · intro hmem
      simp only [List.mem_cons, List.mem_append] at hmem
      rcases hmem with h | h | h
      · exact Effect.noConfusion h
      · exact applyGroups_no_patchStatus w gs st h
      · exact deleteDeployments_no_patchStatus w _ st h

/-- If the publish/patch phase returns an error and its trace contains a
status-patch attempt, then the status patch itself failed. -/
theorem reconcilePublishPhase_err_patch (c : ShardCluster) (w : ReconcileWorld)
    (a b : Nat) (gs : List ShardGroup) (e : String)
    (hres : (reconcilePublishPhase c w a b gs).1 = ReconcileResult.err e)
    (st : ShardClusterStatus)
    (hmem : Effect.patchStatus st ∈ (reconcilePublishPhase c w a b gs).2) :
    ¬ w.patchStatusResult = Except.ok () := by
  unfold reconcilePublishPhase at hres hmem
  rcases hr : w.publishReshardResult with er | u
  · simp only [hr] at hmem
    simp at hmem
  · simp only [hr] at hres hmem
    rcases hs : w.publishStartupResult with es | u2
    · simp only [hs] at hmem
      simp at hmem
    · simp only [hs] at hres hmem
      rcases hp : w.patchStatusResult with ep | u3
      · simp [hp]
      · simp only [hp] at hres
        simp at hres

/-- The set of successful status patches in a reconcile run: a patch was
attempted and the patch call succeeded (a failed patch attempt does not
mutate the resource). -/
def statusPatched (w : ReconcileWorld) (tr : List Effect) : Prop :=
  (∃ st, Effect.patchStatus st ∈ tr) ∧ w.patchStatusResult = Except.ok ()

/-- C9.  Every reconcile call that returns an error — secret fetch, vendor
call, replica reconciliation, broadcast publish, or the status patch itself
failing — leaves the ShardCluster status unpatched: no successful
status-patch effect occurs in its trace, so `current_shards`,
`last_reshard`, `shard_groups` and `phase` all keep their prior values. -/
theorem reconcile_error_status_untouched (c : ShardCluster) (w : ReconcileWorld)
    (e : String) (tr : List Effect)
    (h : reconcile c w = (ReconcileResult.err e, tr)) :
    ¬ statusPatched w tr := by
  rintro ⟨⟨st, hmem⟩, hok⟩
  unfold reconcile at h
  by_cases hg : recentReshard c.status w.now
  · rw [if_pos hg] at h
    simp at h
  · rw [if_neg hg] at h
    rcases hsec : w.secretToken with es | tok
    · simp only [hsec] at h
      simp only [Prod.mk.injEq] at h
      obtain ⟨-, rfl⟩ := h
      simp at hmem
    · simp only [hsec] at h
      rcases hgw : w.gatewayInfo with eg | ⟨rec, mc⟩
      · simp only [hgw] at h
        simp only [Prod.mk.injEq] at h
        obtain ⟨-, rfl⟩ := h
        simp at hmem
      · simp only [hgw] at h
        rcases hcalc : calculate_shard_groups rec c.spec.shardsPerReplica with _ | gs
        · simp only [hcalc] at h
          simp at h
        · simp only [hcalc] at h
          by_cases hneq : clusterGroupCount c ≠ gs.length
          · rw [if_pos hneq] at h
            rcases hcu : (create_or_update_deployments w c.name gs).1 with ec | u
            · simp only [hcu] at h
              simp only [Prod.mk.injEq] at h
              obtain ⟨-, rfl⟩ := h
              simp only [List.mem_cons] at hmem
              rcases hmem with hx | hx | hx
              · exact Effect.noConfusion hx
              · exact Effect.noConfusion hx
              · exact create_or_update_no_patchStatus w c.name gs st hx
            · simp only [hcu] at h
              simp only [Prod.mk.injEq] at h
              obtain ⟨hpr, rfl⟩ := h
              simp only [List.mem_cons, List.mem_append] at hmem
              rcases hmem with hx | hx | hx | hx
              · exact Effect.noConfusion hx
              · exact Effect.noConfusion hx
              · exact create_or_update_no_patchStatus w c.name gs st hx
              · exact reconcilePublishPhase_err_patch c w rec mc gs e hpr st hx hok
          · rw [if_neg hneq] at h
            simp only [Prod.mk.injEq] at h
            obtain ⟨hpr, rfl⟩ := h
            simp only [List.mem_cons] at hmem
            rcases hmem with hx | hx | hx
            · exact Effect.noConfusion hx
            · exact Effect.noConfusion hx
            · exact reconcilePublishPhase_err_patch c w rec mc gs e hpr st hx hok

/-- Witness for C9: a reconcile whose status patch fails with `"boom"`
returns that error, and no successful status patch occurs in its trace. -/
theorem reconcile_error_status_untouched_witness :
    ¬ statusPatched
      (ReconcileWorld.mk 5000 (Except.ok "tok") (Except.ok (4, 1)) (Except.ok [])
        (fun _ => false) (fun _ => Except.ok ()) (fun _ => Except.ok ())
        (fun _ => Except.ok ()) (Except.ok ()) (Except.ok ()) (Except.error "boom"))
      (reconcile
        (ShardCluster.mk "main"
          (ShardClusterSpec.mk "discord-token" "nats://localhost:4222" "stratum:latest" 1 2 6)
          none)
        (ReconcileWorld.mk 5000 (Except.ok "tok") (Except.ok (4, 1)) (Except.ok [])
          (fun _ => false) (fun _ => Except.ok ()) (fun _ => Except.ok ())
          (fun _ => Except.ok ()) (Except.ok ()) (Except.ok ()) (Except.error "boom"))).2 :=
  reconcile_error_status_untouched
    (ShardCluster.mk "main"
      (ShardClusterSpec.mk "discord-token" "nats://localhost:4222" "stratum:latest" 1 2 6)
      none)
    (ReconcileWorld.mk 5000 (Except.ok "tok") (Except.ok (4, 1)) (Except.ok [])
      (fun _ => false) (fun _ => Except.ok ()) (fun _ => Except.ok ())
      (fun _ => Except.ok ()) (Except.ok ()) (Except.ok ()) (Except.error "boom"))
    "boom" _ (by decide)

/-- The partitioner on zero shards returns the empty group list for every
`shards_per_replica`. -/
theorem calculate_shard_groups_zero (per : Nat) :
    calculate_shard_groups 0 per = some [] := by
  unfold calculate_shard_groups
  by_cases h : 0 < per
  · rw [if_pos h]
    simp [calcGroupsGo]
  · rw [if_neg h, if_pos rfl]

/-- When every delete succeeds, the deletion loop succeeds and its trace is
exactly one delete per listed name, in order. -/
theorem deleteDeployments_all_ok (w : ReconcileWorld)
    (hdel : ∀ n, w.deleteDeploymentResult n = Except.ok ()) :
    ∀ ns : List String,
      deleteDeployments w ns = (Except.ok (), ns.map Effect.deleteDeployment) := by
  intro ns
  induction ns with
  | nil => simp [deleteDeployments]
  | cons n rest ih =>
    unfold deleteDeployments
    simp only [hdel n, ih, List.map_cons]

/-- With an empty desired group list, the replica reconciliation lists the
labelled deployments and deletes every one of them. -/
theorem create_or_update_empty (w : ReconcileWorld) (clusterName : String)
    (names : List String)
    (hlist : w.existingDeployments = Except.ok names)
    (hdel : ∀ n, w.deleteDeploymentResult n = Except.ok ()) :
    create_or_update_deployments w clusterName []
      = (Except.ok (), Effect.listDeployments (labelSelector clusterName)
          :: names.map Effect.deleteDeployment) := by
  unfold create_or_update_deployments
  simp only [hlist]
  have hfilter : names.filter
      (fun n => decide (¬ n ∈ ([] : List ShardGroup).map (fun g => g.deploymentName))) = names := by
    simp
  simp only [applyGroups, hfilter, deleteDeployments_all_ok w hdel names, List.nil_append]

/-- C5 (amended).  When the vendor reports `recommended_shards = 0` and the
run succeeds, the partitioner returns the empty group list, the reconciler
publishes the reshard broadcast with `new_shard_count = 0` and the
startup-coordination broadcast, patches status with empty `shard_groups`
and `current_shards = 0` — and, precisely when the previously recorded group
count differs from 0, deletes every replica carrying the
managed-by/app/cluster labels; with a recorded group count of 0 the
replica-reconciliation step (and its deletions) is skipped entirely: the
trace is exactly the secret fetch, the vendor call, the two broadcasts and
the status patch, with no list, get, create, patch or delete of any
replica. -/
theorem reconcile_zero_shards (c : ShardCluster) (w : ReconcileWorld) (mc : Nat) (tok : String)
    (names : List String)
    (hguard : recentReshard c.status w.now = false)
    (hsec : w.secretToken = Except.ok tok)
    (hgw : w.gatewayInfo = Except.ok (0, mc))
    (hlist : w.existingDeployments = Except.ok names)
    (hdel : ∀ n, w.deleteDeploymentResult n = Except.ok ())
    (hpr : w.publishReshardResult = Except.ok ())
    (hps : w.publishStartupResult = Except.ok ())
    (hpst : w.patchStatusResult = Except.ok ()) :
    ∃ tr, reconcile c w = (ReconcileResult.ok (KubeAction.requeue 1800), tr) ∧
      Effect.publishReshard 0 ∈ tr ∧
      Effect.publishStartup c.name mc 0 [] ∈ tr ∧
      Effect.patchStatus (ShardClusterStatus.mk (some 0) (some w.now) [] "Active") ∈ tr ∧
      (clusterGroupCount c ≠ 0 → ∀ n ∈ names, Effect.deleteDeployment n ∈ tr) ∧
      (clusterGroupCount c = 0 →
        tr = [Effect.secretGet c.spec.discordTokenSecret, Effect.gatewayCall,
              Effect.publishReshard 0, Effect.publishStartup c.name mc 0 [],
              Effect.patchStatus (ShardClusterStatus.mk (some 0) (some w.now) []
                "Active")]) := by
  have hphase : reconcilePublishPhase c w 0 mc []
      = (ReconcileResult.ok (KubeAction.requeue 1800),
         [Effect.publishReshard 0, Effect.publishStartup c.name mc 0 [],
          Effect.patchStatus (ShardClusterStatus.mk (some 0) (some w.now) [] "Active")]) := by
    unfold reconcilePublishPhase
    simp only [hpr, hps, hpst]
  unfold reconcile
  rw [hguard]
  rw [if_neg (by decide : ¬ (false = true))]
  simp only [hsec, hgw, calculate_shard_groups_zero, List.length_nil]
  by_cases hcnt : clusterGroupCount c ≠ 0
  · rw [if_pos hcnt]
    simp only [create_or_update_empty w c.name names hlist hdel, hphase]
    refine ⟨_, rfl, ?_, ?_, ?_, ?_, ?_⟩
    · simp
    · simp
    · simp
    · intro _ n hn
      simp only [List.mem_cons, List.mem_append, List.mem_map]
      exact Or.inr (Or.inr (Or.inl (Or.inr ⟨n, hn, rfl⟩)))
    · intro h0
      exact absurd h0 hcnt
  · rw [if_neg hcnt]
    simp only [hphase]
    refine ⟨_, rfl, ?_, ?_, ?_, ?_, ?_⟩
    · simp
    · simp
    · simp
    · intro hc
      exact absurd hc hcnt
    · intro _
      rfl

/-- Witness for C5 (amended): a cluster previously recording one group,
with one labelled replica `stray`, receives `recommended_shards = 0`; the
run publishes both broadcasts with count 0, patches an empty status, and
deletes `stray` (the recorded count 1 differs from 0, so the deletion
branch fires and the skip branch is vacuous). -/
theorem reconcile_zero_shards_witness :
    ∃ tr, reconcile
      (ShardCluster.mk "main"
        (ShardClusterSpec.mk "discord-token" "nats://localhost:4222" "stratum:latest" 1 2 6)
        (some (ShardClusterStatus.mk (some 2) (some 1000) [ShardGroup.mk "stratum-group-0" 0 1 1]
          "Active")))
      (ReconcileWorld.mk 5000 (Except.ok "tok") (Except.ok (0, 1)) (Except.ok ["stray"])
        (fun _ => false) (fun _ => Except.ok ()) (fun _ => Except.ok ())
        (fun _ => Except.ok ()) (Except.ok ()) (Except.ok ()) (Except.ok ()))
      = (ReconcileResult.ok (KubeAction.requeue 1800), tr) ∧
      Effect.publishReshard 0 ∈ tr ∧
      Effect.publishStartup "main" 1 0 [] ∈ tr ∧
      Effect.patchStatus (ShardClusterStatus.mk (some 0) (some 5000) [] "Active") ∈ tr ∧
      (clusterGroupCount (ShardCluster.mk "main"
        (ShardClusterSpec.mk "discord-token" "nats://localhost:4222" "stratum:latest" 1 2 6)
        (some (ShardClusterStatus.mk (some 2) (some 1000) [ShardGroup.mk "stratum-group-0" 0 1 1]
          "Active"))) ≠ 0 → ∀ n ∈ ["stray"], Effect.deleteDeployment n ∈ tr) ∧
      (clusterGroupCount (ShardCluster.mk "main"
        (ShardClusterSpec.mk "discord-token" "nats://localhost:4222" "stratum:latest" 1 2 6)
        (some (ShardClusterStatus.mk (some 2) (some 1000) [ShardGroup.mk "stratum-group-0" 0 1 1]
          "Active"))) = 0 →
        tr = [Effect.secretGet "discord-token", Effect.gatewayCall, Effect.publishReshard 0,
              Effect.publishStartup "main" 1 0 [],
              Effect.patchStatus (ShardClusterStatus.mk (some 0) (some 5000) [] "Active")]) :=
  reconcile_zero_shards _ _ 1 "tok" ["stray"] (by decide) rfl rfl rfl (fun _ => rfl)
    rfl rfl rfl

/-- Counterexample for C5 as stated.  A cluster whose recorded group count
is already 0 (status present with empty `shard_groups`) receives
`recommended_shards = 0` while a labelled replica `stray` exists; the
reconcile succeeds, but because `needs_deployment_update` compares the
recorded count (0) with the new count (0), `create_or_update_deployments`
is never called and the `stray` replica is not deleted — the claim's
"deletes every labelled replica regardless of the previously recorded group
count" fails. -/
theorem reconcile_zero_shards_no_delete_counterexample :
    (reconcile
      (ShardCluster.mk "main"
        (ShardClusterSpec.mk "discord-token" "nats://localhost:4222" "stratum:latest" 1 2 6)
        (some (ShardClusterStatus.mk (some 0) (some 1000) [] "Active")))
      (ReconcileWorld.mk 5000 (Except.ok "tok") (Except.ok (0, 1)) (Except.ok ["stray"])
        (fun _ => false) (fun _ => Except.ok ()) (fun _ => Except.ok ())
        (fun _ => Except.ok ()) (Except.ok ()) (Except.ok ()) (Except.ok ()))).1
      = ReconcileResult.ok (KubeAction.requeue 1800) ∧
    ¬ Effect.deleteDeployment "stray" ∈ (reconcile
      (ShardCluster.mk "main"
        (ShardClusterSpec.mk "discord-token" "nats://localhost:4222" "stratum:latest" 1 2 6)
        (some (ShardClusterStatus.mk (some 0) (some 1000) [] "Active")))
      (ReconcileWorld.mk 5000 (Except.ok "tok") (Except.ok (0, 1)) (Except.ok ["stray"])
        (fun _ => false) (fun _ => Except.ok ()) (fun _ => Except.ok ())
        (fun _ => Except.ok ()) (Except.ok ()) (Except.ok ()) (Except.ok ()))).2 :=
  ⟨by decide, by decide⟩
